import Mathlib

/-!
Verification of the two SRT bridge modules (ingest: modules/access/srt.c,
egress: modules/access_output/srt.c) against their natural-language
specification.  The embedding below translates the data model and the
operations of the two C files: VLC blocks become lists of bytes with a
logical length, the block fifo becomes a list, the two pump threads become
functions over a trace of transport events, and the application-facing
entry points (BlockSRT, Write, Control) become functions on that state.
-/

namespace SrtBridge

/-- VLC success return code (vlc_common.h). -/
def VLC_SUCCESS : Int := 0

/-- VLC generic error return code (vlc_common.h). -/
def VLC_EGENERIC : Int := -1

/-- Default chunk size from both module descriptors (srt.c line 45 / 42). -/
def SRT_DEFAULT_CHUNK_SIZE : Nat := 1316

/-- A VLC block_t: the byte region behind p_buffer together with the logical
length i_buffer.  In the C code p_buffer is a pointer and i_buffer a size;
advancing the cursor is `p_buffer += n; i_buffer -= n`, which here becomes
`p_buffer.drop n` and `i_buffer - n`. -/
structure Block where
  p_buffer : List Nat
  i_buffer : Nat
deriving DecidableEq

/-- block_Alloc n: a fresh block of n bytes (contents unspecified, modelled
as zeroes), logical length n. -/
def block_Alloc (n : Nat) : Block :=
  { p_buffer := List.replicate n 0, i_buffer := n }

/-- One transport event seen by the ingest thread after a successful poll:
either srt_recvmsg succeeds and returns the received bytes (stat =
bytes.length, a non-negative count), or it reports SRT_ERROR (this also
stands for the other loop-breaking conditions: invalid fd, poll failure,
allocation failure). -/
inductive RecvEvent where
  | ok (bytes : List Nat)
  | err
deriving DecidableEq

/-- One iteration body of Thread (access/srt.c lines 94-111) for a
successful receive: block_Alloc(i_chunk_size), srt_recvmsg writes the
received bytes over the start of the buffer and returns stat, then
`pkt->i_buffer = stat` truncates the logical length to the received
count. -/
def ingestPacket (chunk : Nat) (bytes : List Nat) : Block :=
  let pkt := block_Alloc chunk
  let stat := bytes.length
  { p_buffer := bytes ++ pkt.p_buffer.drop stat, i_buffer := stat }

/-- The shared state of the ingest side: the block fifo contents and the
b_woken flag of stream_sys_t. -/
structure IngestState where
  fifo : List Block
  b_woken : Bool
deriving DecidableEq

/-- The receive loop of Thread (access/srt.c lines 76-112): each successful
receive enqueues the truncated block with block_FifoPut; the first error
breaks out of the loop, releasing the current block. -/
def threadLoop (chunk : Nat) : List RecvEvent → List Block → List Block
  | [], fifo => fifo
  | RecvEvent.err :: _, fifo => fifo
  | RecvEvent.ok bs :: rest, fifo =>
      threadLoop chunk rest (fifo ++ [ingestPacket chunk bs])

/-- Thread (access/srt.c) from entry to return, for a trace of transport
events that makes the loop exit: run the receive loop, then (lines 114-117)
set b_woken under the fifo lock and signal the waiters. -/
def threadRun (chunk : Nat) (events : List RecvEvent) : IngestState :=
  { fifo := threadLoop chunk events [], b_woken := true }

/-- BlockSRT (access/srt.c lines 146-165) evaluated after the ingest thread
has exited, so that no further fifo signal can ever arrive -- none models a
call that stays blocked in vlc_fifo_Wait forever.  Otherwise the result is
(pkt?, new state): the while loop exits when the fifo is non-empty or
b_woken is set; a NULL dequeue sets *eof; `p_sys->b_woken = false` is then
executed unconditionally. -/
def blockSRT (s : IngestState) : Option (Option Block × IngestState) :=
  match s.fifo with
  | [] =>
      if s.b_woken then some (none, { fifo := [], b_woken := false })
      else none
  | b :: rest => some (some b, { fifo := rest, b_woken := false })

/-- The outputs of up to k successive pull (BlockSRT) calls after the
ingest thread exited; the list stops early when a call blocks forever
(none is the EOF marker: BlockSRT returned NULL with *eof set). -/
def pullsFrom : IngestState → Nat → List (Option Block)
  | _, 0 => []
  | s, k + 1 =>
      match blockSRT s with
      | none => []
      | some (r, s2) => r :: pullsFrom s2 k

/-- The queries Control (access/srt.c lines 122-144) switches over; `other`
stands for every remaining STREAM_* query value. -/
inductive StreamQuery where
  | canSeek
  | canFastseek
  | canPause
  | canControlPace
  | getPtsDelay
  | other (q : Nat)
deriving DecidableEq

/-- The value written through the va_arg out-pointer by a Control call. -/
inductive CtrlAnswer where
  | flag (b : Bool)
  | delay (v : Int)
deriving DecidableEq

/-- Control (access/srt.c lines 122-144): the capability switch of the
ingest module; networkCaching is var_InheritInteger(p_stream,
"network-caching"). -/
def accessControl (networkCaching : Int) (q : StreamQuery) : Int × Option CtrlAnswer :=
  match q with
  | StreamQuery.canSeek => (VLC_SUCCESS, some (CtrlAnswer.flag false))
  | StreamQuery.canFastseek => (VLC_SUCCESS, some (CtrlAnswer.flag false))
  | StreamQuery.canPause => (VLC_SUCCESS, some (CtrlAnswer.flag false))
  | StreamQuery.canControlPace => (VLC_SUCCESS, some (CtrlAnswer.flag false))
  | StreamQuery.getPtsDelay =>
      (VLC_SUCCESS, some (CtrlAnswer.delay (1000 * networkCaching)))
  | StreamQuery.other _ => (VLC_EGENERIC, none)

/-- The queries Control (access_output/srt.c lines 112-130) switches over. -/
inductive SoutQuery where
  | controlsPace
  | other (q : Nat)
deriving DecidableEq

/-- Control (access_output/srt.c lines 112-130): the capability switch of
the egress module. -/
def soutControl (q : SoutQuery) : Int × Option CtrlAnswer :=
  match q with
  | SoutQuery.controlsPace => (VLC_SUCCESS, some (CtrlAnswer.flag false))
  | SoutQuery.other _ => (VLC_EGENERIC, none)

/-- Result of one srt_sendmsg2 call: SRT_ERROR, or the number of bytes the
transport accepted. -/
inductive SendResult where
  | err
  | ok (accepted : Nat)
deriving DecidableEq

/-- One send call made by the egress drain loop: the bytes handed to
srt_sendmsg2 (req) and what the call returned (res); res = err is the case
in which msg_Warn logs a send error. -/
structure DrainStep where
  req : List Nat
  res : SendResult
deriving DecidableEq

/-- The per-buffer drain loop of Thread (access_output/srt.c lines 75-86),
with explicit fuel bounding the number of iterations (none = the C loop is
still running after that many iterations).  Each iteration sends
i_write = min(i_buffer, chunk) bytes, consumes one result from the
transport trace, and then advances `p_buffer += i_write; i_buffer -=
i_write` -- note the C code compares the send result against SRT_ERROR
only for the warning and otherwise ignores it. -/
def drainFuel (chunk : Nat) : Nat → Block → List SendResult → Option (List DrainStep)
  | 0, pkt, _ => if pkt.i_buffer = 0 then some [] else none
  | fuel + 1, pkt, results =>
      if pkt.i_buffer = 0 then some []
      else
        let i_write := min pkt.i_buffer chunk
        match drainFuel chunk fuel
            { p_buffer := pkt.p_buffer.drop i_write,
              i_buffer := pkt.i_buffer - i_write } results.tail with
        | none => none
        | some steps =>
            some ({ req := pkt.p_buffer.take i_write,
                    res := results.headD (SendResult.ok i_write) } :: steps)

/-- The lengths of the successive send requests the drain loop issues for a
logical length len (fuel as in drainFuel). -/
def reqLens (chunk : Nat) : Nat → Nat → List Nat
  | 0, _ => []
  | fuel + 1, len =>
      if len = 0 then []
      else min len chunk :: reqLens chunk fuel (len - min len chunk)

/-- Write (access_output/srt.c lines 94-110): walk the caller's chain,
accumulate i_len += p_buffer->i_buffer, and block_FifoPut each block
individually; returns (i_len, fifo contents afterwards). -/
def Write : List Block → List Block → Nat × List Block
  | [], fifo => (0, fifo)
  | b :: rest, fifo =>
      let r := Write rest (fifo ++ [b])
      (b.i_buffer + r.1, r.2)

/-- The egress pump Thread (access_output/srt.c lines 71-89) run over the
current fifo contents: block_FifoGet each block in order and drain it;
each drain consumes one send result per send call from the transport
trace. -/
def egressRun (chunk fuel : Nat) : List Block → List SendResult → Option (List DrainStep)
  | [], _ => some []
  | b :: rest, results =>
      match drainFuel chunk fuel b results with
      | none => none
      | some steps =>
          match egressRun chunk fuel rest (results.drop steps.length) with
          | none => none
          | some more => some (steps ++ more)

/-- Ceiling division on Nat: the number of chunk-sized send calls needed
for len bytes. -/
def ceilDivNat (a b : Nat) : Nat := (a + b - 1) / b

/-- Modelled from the spec: the BoundedBlockingQueue of sections 3 and 4.3
on the egress path.  The queue implementation itself (block_FifoNew /
block_FifoPut, VLC core) is not under src/; per the spec the egress queue
has a bounded capacity. -/
structure BoundedFifo where
  capacity : Nat
  items : List Block
deriving DecidableEq

/-- Modelled from the spec: egress enqueue "blocks until capacity available
(egress path, providing backpressure to the application's push call)" --
none models the push call blocking until a dequeuer frees a slot. -/
def egressEnqueue (q : BoundedFifo) (b : Block) : Option BoundedFifo :=
  if q.items.length < q.capacity then
    some { q with items := q.items ++ [b] }
  else none

/-- Modelled from the spec: dequeue returns the oldest buffer (FIFO order);
none when the queue is empty (the pump would block). -/
def egressDequeue (q : BoundedFifo) : Option (Block × BoundedFifo) :=
  match q.items with
  | [] => none
  | b :: rest => some (b, { q with items := rest })

end SrtBridge

namespace SrtBridge

/-- The receive loop appends one truncated block per successful receive, in
receive order, until the terminating error. -/
theorem threadLoop_append (chunk : Nat) (pkts : List (List Nat)) :
    ∀ acc : List Block,
      threadLoop chunk (pkts.map RecvEvent.ok ++ [RecvEvent.err]) acc
        = acc ++ pkts.map (ingestPacket chunk) := by
  induction pkts with
  | nil => intro acc; simp [threadLoop]
  | cons p ps ih =>
      intro acc
      simp [threadLoop, ih, List.append_assoc]

/-- With the fifo empty and b_woken already consumed, every pull blocks. -/
theorem pullsFrom_nil_not_woken (k : Nat) :
    pullsFrom { fifo := [], b_woken := false } k = [] := by
  cases k with
  | zero => rfl
  | succ k => rfl

/-- Pull outputs after the ingest thread has exited, from an arbitrary
fifo/flag state: the queued blocks are drained in order; an EOF marker
appears only when the fifo is empty while the flag is still set, and it
appears at most once because BlockSRT resets the flag. -/
theorem pulls_drained (q : List Block) :
    ∀ (w : Bool) (k : Nat), q.length + 1 ≤ k →
      pullsFrom { fifo := q, b_woken := w } k
        = if q = [] then (if w then [none] else []) else q.map some := by
  induction q with
  | nil =>
      intro w k hk
      match k, hk with
      | k + 1, _ =>
        cases w with
        | false => simp [pullsFrom, blockSRT]
        | true => simp [pullsFrom, blockSRT, pullsFrom_nil_not_woken]
  | cons b bs ih =>
      intro w k hk
      match k, hk with
      | k + 1, hk =>
        have hk' : bs.length + 1 ≤ k := by
          simp only [List.length_cons] at hk; omega
        have hstep : pullsFrom { fifo := b :: bs, b_woken := w } (k + 1)
            = some b :: pullsFrom { fifo := bs, b_woken := false } k := rfl
        rw [hstep, ih false k hk']
        by_cases hbs : bs = [] <;> simp [hbs]

end SrtBridge

namespace SrtBridge

/-- Ceiling division of zero. -/
theorem ceilDivNat_zero (chunk : Nat) (hc : 0 < chunk) : ceilDivNat 0 chunk = 0 := by
  have h : chunk - 1 < chunk := by omega
  simp [ceilDivNat, Nat.div_eq_of_lt h]

/-- One drain iteration removes min(len, chunk) bytes and accounts for one
of the ceil(len / chunk) send calls. -/
theorem ceilDivNat_step (chunk len : Nat) (hc : 0 < chunk) (hl : 0 < len) :
    ceilDivNat len chunk = ceilDivNat (len - min len chunk) chunk + 1 := by
  unfold ceilDivNat
  rcases Nat.le_total len chunk with h | h
  · have hmin : min len chunk = len := Nat.min_eq_left h
    rw [hmin]
    have h1 : (len + chunk - 1) / chunk = 1 := by
      apply Nat.div_eq_of_lt_le
      · omega
      · omega
    have h2 : (len - len + chunk - 1) / chunk = 0 := by
      apply Nat.div_eq_of_lt
      omega
    rw [h1, h2]
  · have hmin : min len chunk = chunk := Nat.min_eq_right h
    rw [hmin]
    have e1 : len + chunk - 1 = (len - 1) + chunk := by omega
    have e2 : len - chunk + chunk - 1 = len - 1 := by omega
    rw [e1, e2, Nat.add_div_right _ hc]

/-- ceil(len / chunk) iterations of at most chunk bytes each cover len. -/
theorem le_chunk_mul_ceil (chunk len : Nat) (hc : 0 < chunk) :
    len ≤ chunk * ceilDivNat len chunk := by
  unfold ceilDivNat
  have h : ∀ m r : Nat, m + r = len + chunk - 1 → r < chunk → len ≤ m := by
    intro m r h1 h2; omega
  exact h _ _ (Nat.div_add_mod (len + chunk - 1) chunk) (Nat.mod_lt _ hc)

/-- Behaviour of the per-buffer drain loop, for any transport trace rs
(send errors included, since the code ignores the result except for the
warning): with enough fuel the loop terminates, the bytes handed to the
successive send calls are exactly the buffer's logical bytes in order
split at the chunk size, the loop makes exactly ceil(len / chunk) send
calls, and for a well-formed block the requested lengths follow reqLens. -/
theorem drain_spec (chunk : Nat) (hc : 0 < chunk) :
    ∀ (fuel len : Nat) (buf : List Nat) (rs : List SendResult),
      len ≤ chunk * fuel →
      ∃ steps,
        drainFuel chunk fuel { p_buffer := buf, i_buffer := len } rs = some steps
        ∧ (steps.map DrainStep.req).flatten = buf.take len
        ∧ steps.length = ceilDivNat len chunk
        ∧ (∀ s ∈ steps, s.req.length ≤ chunk)
        ∧ (len ≤ buf.length →
            steps.map (fun s => s.req.length) = reqLens chunk fuel len) := by
  intro fuel
  induction fuel with
  | zero =>
      intro len buf rs hlen
      have h0 : len = 0 := by omega
      subst h0
      refine ⟨[], by simp [drainFuel], by simp, ?_, by simp, fun _ => by simp [reqLens]⟩
      simp [ceilDivNat_zero chunk hc]
  | succ fuel ih =>
      intro len buf rs hlen
      by_cases h0 : len = 0
      · subst h0
        refine ⟨[], by simp [drainFuel], by simp, ?_, by simp, fun _ => by simp [reqLens]⟩
        simp [ceilDivNat_zero chunk hc]
      · have hrec : len - min len chunk ≤ chunk * fuel := by
          rcases Nat.le_total len chunk with h | h
          · rw [Nat.min_eq_left h]; omega
          · rw [Nat.min_eq_right h]
            have hmul : chunk * (fuel + 1) = chunk * fuel + chunk := Nat.mul_succ chunk fuel
            omega
        obtain ⟨steps', h1, h2, h3, h4, h5⟩ :=
          ih (len - min len chunk) (buf.drop (min len chunk)) rs.tail hrec
        refine ⟨{ req := buf.take (min len chunk),
                  res := rs.headD (SendResult.ok (min len chunk)) } :: steps',
                ?_, ?_, ?_, ?_, ?_⟩
        · simp only [drainFuel, if_neg h0]
          rw [h1]
        · simp only [List.map_cons, List.flatten_cons]
          rw [h2, ← List.take_add]
          congr 1
          have := Nat.min_le_left len chunk
          omega
        · simp only [List.length_cons, h3]
          rw [ceilDivNat_step chunk len hc (by omega)]
        · intro s hs
          rcases List.mem_cons.mp hs with h | h
          · subst h
            simp only [List.length_take]
            have := Nat.min_le_right len chunk
            omega
          · exact h4 s h
        · intro hbuf
          have hlenbuf : len - min len chunk ≤ (buf.drop (min len chunk)).length := by
            simp only [List.length_drop]; omega
          simp only [List.map_cons, h5 hlenbuf, reqLens, if_neg h0, List.length_take]
          congr 1
          have h6 : min len chunk ≤ len := Nat.min_le_left len chunk
          omega

/-- The egress pump over a sequence of dequeued blocks: same guarantees as
drain_spec, buffer after buffer, for any transport trace. -/
theorem egress_spec (chunk fuel : Nat) (hc : 0 < chunk) :
    ∀ (bufs : List Block) (rs : List SendResult),
      (∀ b ∈ bufs, b.i_buffer ≤ chunk * fuel) →
      ∃ steps,
        egressRun chunk fuel bufs rs = some steps
        ∧ (steps.map DrainStep.req).flatten
            = (bufs.map (fun b => b.p_buffer.take b.i_buffer)).flatten
        ∧ (∀ s ∈ steps, s.req.length ≤ chunk)
        ∧ ((∀ b ∈ bufs, b.i_buffer ≤ b.p_buffer.length) →
            steps.map (fun s => s.req.length)
              = (bufs.map (fun b => reqLens chunk fuel b.i_buffer)).flatten) := by
  intro bufs
  induction bufs with
  | nil =>
      intro rs hfuel
      exact ⟨[], rfl, by simp, by simp, fun _ => by simp⟩
  | cons b bs ih =>
      intro rs hfuel
      obtain ⟨steps1, h1, h2, h3, h4, h5⟩ :=
        drain_spec chunk hc fuel b.i_buffer b.p_buffer rs
          (hfuel b (List.mem_cons_self b bs))
      obtain ⟨steps2, g1, g2, g3, g4⟩ :=
        ih (rs.drop steps1.length) (fun x hx => hfuel x (List.mem_cons_of_mem b hx))
      refine ⟨steps1 ++ steps2, ?_, ?_, ?_, ?_⟩
      · simp only [egressRun, h1, g1]
      · simp only [List.map_append, List.flatten_append, List.map_cons,
          List.flatten_cons]
        rw [h2, g2]
      · intro s hs
        rcases List.mem_append.mp hs with h | h
        · exact h4 s h
        · exact g3 s h
      · intro hwf
        simp only [List.map_append, List.map_cons, List.flatten_cons]
        rw [h5 (hwf b (List.mem_cons_self b bs)),
            g4 (fun x hx => hwf x (List.mem_cons_of_mem b hx))]

/-- Write appends the chain's blocks to the fifo one by one in order and
returns the sum of their logical lengths, touching nothing else. -/
theorem Write_spec :
    ∀ (chain fifo : List Block),
      (Write chain fifo).2 = fifo ++ chain
      ∧ (Write chain fifo).1 = (chain.map Block.i_buffer).sum := by
  intro chain
  induction chain with
  | nil => intro fifo; exact ⟨by simp [Write], by simp [Write]⟩
  | cons b bs ih =>
      intro fifo
      constructor
      · show (Write bs (fifo ++ [b])).2 = fifo ++ b :: bs
        rw [(ih (fifo ++ [b])).1]
        simp
      · show b.i_buffer + (Write bs (fifo ++ [b])).1 = ((b :: bs).map Block.i_buffer).sum
        rw [(ih (fifo ++ [b])).2]
        simp

end SrtBridge

namespace SrtBridge

/-- C1 (amended): for every finite sequence of delivered packets followed by
transport close/error, successive pull (BlockSRT) calls return the buffers
in receive order, each with logical length equal to the byte count the
receive call reported (not the requested chunk size) and with exactly the
received payload; but an EOF marker follows only when NO packet was still
queued when the pump exited (for a non-empty backlog the pull after the
last packet blocks forever instead, because BlockSRT reset b_woken). -/
theorem C1_pull_order (chunk : Nat) (pkts : List (List Nat)) (k : Nat)
    (hk : pkts.length + 1 ≤ k) :
    pullsFrom (threadRun chunk (pkts.map RecvEvent.ok ++ [RecvEvent.err])) k
      = (if pkts = [] then [none]
         else pkts.map (fun p => some (ingestPacket chunk p)))
    ∧ (∀ p ∈ pkts, (ingestPacket chunk p).i_buffer = p.length)
    ∧ (∀ p ∈ pkts, (ingestPacket chunk p).p_buffer.take p.length = p) := by
  refine ⟨?_, ?_, ?_⟩
  · have hf : threadRun chunk (pkts.map RecvEvent.ok ++ [RecvEvent.err])
        = { fifo := pkts.map (ingestPacket chunk), b_woken := true } := by
      unfold threadRun
      rw [threadLoop_append]
      simp
    rw [hf, pulls_drained (pkts.map (ingestPacket chunk)) true k
          (by simp only [List.length_map]; exact hk)]
    by_cases h : pkts = []
    · simp [h]
    · rw [if_neg (by simp only [ne_eq, List.map_eq_nil_iff]; exact h), if_neg h,
        List.map_map]
      rfl
  · intro p _
    rfl
  · intro p _
    simp only [ingestPacket, block_Alloc]
    exact List.take_left p _

/-- C1 witness: one 1-byte packet received with chunk size 4, then the
transport errors; two pulls deliver the packet (length 1, payload [7]). -/
theorem C1_pull_order_witness :
    (([[7]] : List (List Nat)).length + 1 ≤ 2)
    ∧ (pullsFrom (threadRun 4 (([[7]] : List (List Nat)).map RecvEvent.ok
            ++ [RecvEvent.err])) 2
        = (if ([[7]] : List (List Nat)) = [] then [none]
           else ([[7]] : List (List Nat)).map (fun p => some (ingestPacket 4 p)))
      ∧ (∀ p ∈ ([[7]] : List (List Nat)), (ingestPacket 4 p).i_buffer = p.length)
      ∧ (∀ p ∈ ([[7]] : List (List Nat)),
            (ingestPacket 4 p).p_buffer.take p.length = p)) :=
  ⟨by decide, C1_pull_order 4 [[7]] 2 (by decide)⟩

/-- C1 counterexample: one packet is delivered and the transport then
closes; three successive pulls return just the packet and never an EOF
marker (the second pull blocks forever), refuting "exactly one EOF marker
follows the delivered packets". -/
theorem C1_eof_counterexample :
    pullsFrom (threadRun 4 [RecvEvent.ok [7], RecvEvent.err]) 3
      = [some (ingestPacket 4 [7])]
    ∧ (none : Option Block) ∉ pullsFrom (threadRun 4 [RecvEvent.ok [7], RecvEvent.err]) 3 := by
  decide

/-- C2: the pump exit does set b_woken under the fifo lock and signal, but
the claim that EVERY later pull drains and then returns EOF fails: with one
packet left queued at pump exit, the first pull returns the packet and
resets b_woken, and the second pull finds the fifo empty with b_woken
false, so BlockSRT stays blocked in vlc_fifo_Wait forever (blockSRT =
none) instead of returning EOF. -/
theorem C2_pull_blocks_after_drain :
    (threadRun 4 [RecvEvent.ok [7], RecvEvent.err]).b_woken = true
    ∧ pullsFrom (threadRun 4 [RecvEvent.ok [7], RecvEvent.err]) 2
        = [some (ingestPacket 4 [7])]
    ∧ blockSRT { fifo := [], b_woken := false } = none := by
  decide

/-- C6: Write (access_output/srt.c) enqueues each block of the chain as an
individual fifo entry in the chain's original order, and returns the sum of
the logical lengths of all blocks of the chain; it touches neither the
socket nor the pump, so the result is independent of what has been
transmitted. -/
theorem C6_write_enqueue_sum :
    ∀ (chain fifo : List Block),
      (Write chain fifo).2 = fifo ++ chain
      ∧ (Write chain fifo).1 = (chain.map Block.i_buffer).sum := by
  intro chain fifo
  exact Write_spec chain fifo

/-- C9: the ingest Control reports seekable, fast-seekable, pausable and
paced-by-consumer all false, reports a PTS delay of 1000 times the
network-caching value, and returns VLC_EGENERIC for every other query; the
egress Control reports paced-by-consumer false and VLC_EGENERIC for every
other query. -/
theorem C9_control_queries :
    ∀ caching : Int,
      accessControl caching StreamQuery.canSeek
          = (VLC_SUCCESS, some (CtrlAnswer.flag false))
      ∧ accessControl caching StreamQuery.canFastseek
          = (VLC_SUCCESS, some (CtrlAnswer.flag false))
      ∧ accessControl caching StreamQuery.canPause
          = (VLC_SUCCESS, some (CtrlAnswer.flag false))
      ∧ accessControl caching StreamQuery.canControlPace
          = (VLC_SUCCESS, some (CtrlAnswer.flag false))
      ∧ accessControl caching StreamQuery.getPtsDelay
          = (VLC_SUCCESS, some (CtrlAnswer.delay (1000 * caching)))
      ∧ (∀ q : Nat, accessControl caching (StreamQuery.other q)
          = (VLC_EGENERIC, none))
      ∧ soutControl SoutQuery.controlsPace
          = (VLC_SUCCESS, some (CtrlAnswer.flag false))
      ∧ (∀ q : Nat, soutControl (SoutQuery.other q) = (VLC_EGENERIC, none)) := by
  intro caching
  exact ⟨rfl, rfl, rfl, rfl, rfl, fun _ => rfl, rfl, fun _ => rfl⟩

/-- C10: a receive call that returns 0 bytes without error still enqueues
the freshly allocated block with its logical length truncated to 0, and a
subsequent pull returns that zero-length block (not NULL, so *eof is not
set) in its fifo position. -/
theorem C10_zero_length_packet :
    ∀ (chunk : Nat) (evs : List RecvEvent) (fifo rest : List Block) (w : Bool),
      (ingestPacket chunk []).i_buffer = 0
      ∧ threadLoop chunk (RecvEvent.ok [] :: evs) fifo
          = threadLoop chunk evs (fifo ++ [ingestPacket chunk []])
      ∧ blockSRT { fifo := ingestPacket chunk [] :: rest, b_woken := w }
          = some (some (ingestPacket chunk []), { fifo := rest, b_woken := false }) := by
  intro chunk evs fifo rest w
  exact ⟨rfl, rfl, rfl⟩

end SrtBridge

namespace SrtBridge

/-- C3 counterexample: buffer [1,2,3] with chunk size 2, the first send
reports SRT_ERROR.  The claim predicts processing of the buffer's
remaining bytes is aborted (a single send call); the code instead advances
past the erred chunk and makes a second send call with the remaining byte
[3]. -/
theorem C3_send_error_counterexample :
    drainFuel 2 2 { p_buffer := [1, 2, 3], i_buffer := 3 }
        [SendResult.err, SendResult.ok 1]
      = some [{ req := [1, 2], res := SendResult.err },
              { req := [3], res := SendResult.ok 1 }]
    ∧ (drainFuel 2 2 { p_buffer := [1, 2, 3], i_buffer := 3 }
        [SendResult.err, SendResult.ok 1]).map List.length ≠ some 1 := by
  decide

/-- C3 (amended): a send error only logs a warning; the drain loop advances
the cursor past the erred chunk and keeps sending the buffer's remaining
chunks, then the pump dequeues the next buffer.  Whatever results the
transport returns -- errors included -- the pump processes every queued
buffer to the end and never terminates because of a send error: with
enough fuel for each buffer, egressRun completes and the concatenation of
all send requests still covers every queued byte. -/
theorem C3_error_keeps_pumping (chunk fuel : Nat) (bufs : List Block)
    (rs : List SendResult) (hc : 0 < chunk)
    (hfuel : ∀ b ∈ bufs, b.i_buffer ≤ chunk * fuel) :
    ∃ steps,
      egressRun chunk fuel bufs rs = some steps
      ∧ (steps.map DrainStep.req).flatten
          = (bufs.map (fun b => b.p_buffer.take b.i_buffer)).flatten := by
  obtain ⟨steps, h1, h2, _, _⟩ := egress_spec chunk fuel hc bufs rs hfuel
  exact ⟨steps, h1, h2⟩

/-- C3 witness: two queued buffers, chunk size 2, with send errors in the
trace; the pump still sends every byte of both buffers. -/
theorem C3_error_keeps_pumping_witness :
    (0 < 2)
    ∧ (∀ b ∈ [Block.mk [1, 2, 3] 3, Block.mk [9] 1], b.i_buffer ≤ 2 * 2)
    ∧ (∃ steps,
        egressRun 2 2 [Block.mk [1, 2, 3] 3, Block.mk [9] 1]
            [SendResult.err, SendResult.ok 1, SendResult.err] = some steps
        ∧ (steps.map DrainStep.req).flatten
            = ([Block.mk [1, 2, 3] 3, Block.mk [9] 1].map
                (fun b => b.p_buffer.take b.i_buffer)).flatten) :=
  ⟨by decide, by decide,
    C3_error_keeps_pumping 2 2 [Block.mk [1, 2, 3] 3, Block.mk [9] 1]
      [SendResult.err, SendResult.ok 1, SendResult.err] (by decide) (by decide)⟩

/-- C4: for every chain handed to Write, in a run where no send errors and
the transport accepts every request in full, the payloads of the
successive send calls concatenate to the submitted bytes in order, each
send carries at most chunk-size bytes, and the request lengths are
reqLens of each block's length -- in particular a 3000-byte buffer with
chunk size 1316 yields exactly the three requests 1316, 1316, 368 (see the
witness). -/
theorem C4_chunking_transparent (chunk fuel : Nat) (chain : List Block)
    (rs : List SendResult) (hc : 0 < chunk)
    (hfuel : ∀ b ∈ chain, b.i_buffer ≤ chunk * fuel)
    (hwf : ∀ b ∈ chain, b.i_buffer ≤ b.p_buffer.length)
    (_hok : ∀ r ∈ rs, r ≠ SendResult.err) :
    ∃ steps,
      egressRun chunk fuel (Write chain []).2 rs = some steps
      ∧ (steps.map DrainStep.req).flatten
          = (chain.map (fun b => b.p_buffer.take b.i_buffer)).flatten
      ∧ (∀ s ∈ steps, s.req.length ≤ chunk)
      ∧ steps.map (fun s => s.req.length)
          = (chain.map (fun b => reqLens chunk fuel b.i_buffer)).flatten := by
  have hw : (Write chain []).2 = chain := by
    rw [(Write_spec chain []).1]
    simp
  rw [hw]
  obtain ⟨steps, h1, h2, h3, h4⟩ := egress_spec chunk fuel hc chain rs hfuel
  exact ⟨steps, h1, h2, h3, h4 hwf⟩

/-- C4 witness: a single 3000-byte buffer pushed with chunk size 1316 and a
fully-accepting transport; the three send calls have lengths 1316, 1316
and 368. -/
theorem C4_chunking_transparent_witness :
    (0 < 1316)
    ∧ (∀ b ∈ [Block.mk (List.replicate 3000 7) 3000], b.i_buffer ≤ 1316 * 3)
    ∧ (∀ b ∈ [Block.mk (List.replicate 3000 7) 3000],
        b.i_buffer ≤ b.p_buffer.length)
    ∧ (∀ r ∈ [SendResult.ok 1316, SendResult.ok 1316, SendResult.ok 368],
        r ≠ SendResult.err)
    ∧ (∃ steps,
        egressRun 1316 3 (Write [Block.mk (List.replicate 3000 7) 3000] []).2
            [SendResult.ok 1316, SendResult.ok 1316, SendResult.ok 368]
          = some steps
        ∧ (steps.map DrainStep.req).flatten
            = ([Block.mk (List.replicate 3000 7) 3000].map
                (fun b => b.p_buffer.take b.i_buffer)).flatten
        ∧ (∀ s ∈ steps, s.req.length ≤ 1316)
        ∧ steps.map (fun s => s.req.length)
            = ([Block.mk (List.replicate 3000 7) 3000].map
                (fun b => reqLens 1316 3 b.i_buffer)).flatten)
    ∧ reqLens 1316 3 3000 = [1316, 1316, 368] :=
  ⟨by decide,
   by
     intro b hb
     rw [List.mem_singleton] at hb
     subst hb
     norm_num,
   by
     intro b hb
     rw [List.mem_singleton] at hb
     subst hb
     dsimp only
     have h := List.length_replicate 3000 7
     omega,
   by decide,
   C4_chunking_transparent 1316 3 [Block.mk (List.replicate 3000 7) 3000]
     [SendResult.ok 1316, SendResult.ok 1316, SendResult.ok 368]
     (by decide)
     (by
       intro b hb
       rw [List.mem_singleton] at hb
       subst hb
       norm_num)
     (by
       intro b hb
       rw [List.mem_singleton] at hb
       subst hb
       dsimp only
       have h := List.length_replicate 3000 7
       omega)
     (by decide),
   by decide⟩

end SrtBridge

namespace SrtBridge

/-- C5 counterexample: buffer [1,2,3,4,5] with chunk size 4; the first send
returns 2 (the transport accepted only 2 of the 4 requested bytes).  The
claim predicts the cursor advances by 2 so that the second send re-sends
[3,4,5]; the code advances by the full i_write = 4 and the second send
carries only [5] -- bytes 3 and 4 are never re-sent. -/
theorem C5_partial_send_counterexample :
    drainFuel 4 2 { p_buffer := [1, 2, 3, 4, 5], i_buffer := 5 }
        [SendResult.ok 2, SendResult.ok 1]
      = some [{ req := [1, 2, 3, 4], res := SendResult.ok 2 },
              { req := [5], res := SendResult.ok 1 }]
    ∧ (drainFuel 4 2 { p_buffer := [1, 2, 3, 4, 5], i_buffer := 5 }
          [SendResult.ok 2, SendResult.ok 1]).map (List.map DrainStep.req)
        ≠ some [[1, 2, 3, 4], [3, 4, 5]] := by
  decide

/-- C5 (amended): after each send call the cursor advances by exactly
i_write = min(remaining, chunk-size), the REQUESTED length, regardless of
the value the send call returned: the sequence of payloads handed to send
is identical for any two transport traces, so a partially accepted chunk's
remainder is never re-sent. -/
theorem C5_cursor_ignores_result :
    ∀ (chunk fuel : Nat) (pkt : Block) (rs rs' : List SendResult),
      (drainFuel chunk fuel pkt rs).map (List.map DrainStep.req)
        = (drainFuel chunk fuel pkt rs').map (List.map DrainStep.req) := by
  intro chunk fuel
  induction fuel with
  | zero =>
      intro pkt rs rs'
      rfl
  | succ fuel ih =>
      intro pkt rs rs'
      by_cases h0 : pkt.i_buffer = 0
      · simp [drainFuel, h0]
      · have hrec := ih { p_buffer := pkt.p_buffer.drop (min pkt.i_buffer chunk),
                          i_buffer := pkt.i_buffer - min pkt.i_buffer chunk }
                        rs.tail rs'.tail
        simp only [drainFuel, if_neg h0]
        cases h1 : drainFuel chunk fuel
            { p_buffer := pkt.p_buffer.drop (min pkt.i_buffer chunk),
              i_buffer := pkt.i_buffer - min pkt.i_buffer chunk } rs.tail with
        | none =>
            cases h2 : drainFuel chunk fuel
                { p_buffer := pkt.p_buffer.drop (min pkt.i_buffer chunk),
                  i_buffer := pkt.i_buffer - min pkt.i_buffer chunk } rs'.tail with
            | none => rfl
            | some steps2 =>
                rw [h1, h2] at hrec
                exact absurd hrec (by simp)
        | some steps1 =>
            cases h2 : drainFuel chunk fuel
                { p_buffer := pkt.p_buffer.drop (min pkt.i_buffer chunk),
                  i_buffer := pkt.i_buffer - min pkt.i_buffer chunk } rs'.tail with
            | none =>
                rw [h1, h2] at hrec
                exact absurd hrec (by simp)
            | some steps2 =>
                rw [h1, h2] at hrec
                simp only [Option.map_some', Option.some.injEq] at hrec
                simp only [Option.map_some', Option.some.injEq, List.map_cons]
                rw [hrec]

/-- C7 (queue modelled from the spec, sections 3 and 4.3): the egress queue
has a bounded capacity; enqueue from push blocks exactly when the queue is
full, succeeds by appending otherwise, and after a dequeue has freed a
slot of a full-but-consistent queue, the blocked enqueue can proceed --
the backpressure contract toward the application's push call. -/
theorem C7_bounded_backpressure :
    ∀ (q : BoundedFifo) (b : Block),
      (q.capacity ≤ q.items.length → egressEnqueue q b = none)
      ∧ (q.items.length < q.capacity →
          egressEnqueue q b
            = some { capacity := q.capacity, items := q.items ++ [b] })
      ∧ (∀ (c : Block) (q2 : BoundedFifo),
          q.items.length ≤ q.capacity →
          egressDequeue q = some (c, q2) →
          egressEnqueue q2 b
            = some { capacity := q.capacity, items := q2.items ++ [b] }) := by
  intro q b
  refine ⟨?_, ?_, ?_⟩
  · intro h
    simp [egressEnqueue, Nat.not_lt.mpr h]
  · intro h
    simp [egressEnqueue, h]
  · intro c q2 hcap hdq
    cases q with
    | mk cap items =>
        cases items with
        | nil => simp [egressDequeue] at hdq
        | cons x rest =>
            simp only [egressDequeue, Option.some.injEq, Prod.mk.injEq] at hdq
            obtain ⟨hx, hq2⟩ := hdq
            subst hq2
            simp only [List.length_cons] at hcap
            simp only [egressEnqueue]
            rw [if_pos (by omega)]

/-- C7 witness: capacity-1 queue; enqueue on the full queue blocks, and
after dequeueing the slot the enqueue succeeds. -/
theorem C7_bounded_backpressure_witness :
    (egressEnqueue { capacity := 1, items := [Block.mk [] 0] } (Block.mk [5] 1)
        = none)
    ∧ (egressEnqueue { capacity := 1, items := [] } (Block.mk [5] 1)
        = some { capacity := 1, items := [Block.mk [5] 1] }) :=
  ⟨(C7_bounded_backpressure { capacity := 1, items := [Block.mk [] 0] }
      (Block.mk [5] 1)).1 (by decide),
   (C7_bounded_backpressure { capacity := 1, items := [] }
      (Block.mk [5] 1)).2.1 (by decide)⟩

/-- C8: a zero-length buffer leads to zero send calls, and the per-buffer
drain loop terminates for every buffer after exactly
ceil(i_buffer / chunk-size) send attempts (that much fuel makes drainFuel
return some), neither spinning nor blocking when the remaining length
is 0. -/
theorem C8_drain_terminates (chunk : Nat) (pkt : Block) (rs : List SendResult)
    (hc : 0 < chunk) :
    ∃ steps,
      drainFuel chunk (ceilDivNat pkt.i_buffer chunk) pkt rs = some steps
      ∧ steps.length = ceilDivNat pkt.i_buffer chunk
      ∧ (pkt.i_buffer = 0 → steps = []) := by
  obtain ⟨steps, h1, _, h3, _, _⟩ :=
    drain_spec chunk hc (ceilDivNat pkt.i_buffer chunk) pkt.i_buffer pkt.p_buffer rs
      (le_chunk_mul_ceil chunk pkt.i_buffer hc)
  refine ⟨steps, h1, h3, ?_⟩
  intro h0
  have hz : steps.length = 0 := by rw [h3, h0, ceilDivNat_zero chunk hc]
  exact List.length_eq_zero.mp hz

/-- C8 witness: a 3-byte buffer with chunk size 2 terminates in exactly
ceil(3/2) = 2 send attempts. -/
theorem C8_drain_terminates_witness :
    (0 < 2)
    ∧ (∃ steps,
        drainFuel 2 (ceilDivNat 3 2) (Block.mk [1, 2, 3] 3) [] = some steps
        ∧ steps.length = ceilDivNat 3 2
        ∧ ((Block.mk [1, 2, 3] 3).i_buffer = 0 → steps = [])) :=
  ⟨by decide, C8_drain_terminates 2 (Block.mk [1, 2, 3] 3) [] (by decide)⟩

end SrtBridge
